import Mathlib

/-!
Verification of the mythril browser micro-framework (`src/mythril/js/mythril.js`
and the earlier draft `src/unnamed/part_000`) against its specification.

The JavaScript is shallowly embedded: JS strings are `String`/`List Char`
(sequences of Unicode scalar values), JS objects with string keys are
association lists with overwrite-on-assignment semantics, `undefined` is
`Option.none`, and the single-threaded event loop is modelled by explicit
state-passing step functions over traces of events (network responses and
timer firings).
-/

namespace Mythril

/-! ### ECMAScript host primitives used by the source

`encodeURIComponent`, `decodeURIComponent` and `String.prototype.split` are
host builtins; they are modelled here from the ECMAScript specification
(percent-encoding of strict UTF-8 bytes, with `encodeURIComponent`'s
unescaped set being alphanumerics plus `- _ . ! ~ * ' ( )`). -/

/-- Uppercase hexadecimal digit for a value below 16, as emitted by
`encodeURIComponent`. -/
def hexDigit (n : Nat) : Char :=
  Char.ofNat (if n < 10 then 48 + n else 55 + n)

/-- Value of a hexadecimal digit character, case-insensitive. -/
def hexVal (c : Char) : Option Nat :=
  if 48 ≤ c.toNat ∧ c.toNat ≤ 57 then some (c.toNat - 48)
  else if 65 ≤ c.toNat ∧ c.toNat ≤ 70 then some (c.toNat - 55)
  else if 97 ≤ c.toNat ∧ c.toNat ≤ 102 then some (c.toNat - 87)
  else none

/-- The characters `encodeURIComponent` leaves unescaped: ASCII alphanumerics
and `- _ . ! ~ * ' ( )` (code points 45, 95, 46, 33, 126, 42, 39, 40, 41). -/
def isUnreserved (c : Char) : Bool :=
  let n := c.toNat
  decide (48 ≤ n ∧ n ≤ 57) || decide (65 ≤ n ∧ n ≤ 90) ||
  decide (97 ≤ n ∧ n ≤ 122) || decide (n = 45) || decide (n = 95) ||
  decide (n = 46) || decide (n = 33) || decide (n = 126) || decide (n = 42) ||
  decide (n = 39) || decide (n = 40) || decide (n = 41)

/-- Strict UTF-8 byte sequence of a Unicode scalar value (expressed with
division/remainder rather than bit operations). -/
def utf8Bytes (c : Char) : List Nat :=
  let v := c.toNat
  if v < 0x80 then [v]
  else if v < 0x800 then [0xC0 + v / 64, 0x80 + v % 64]
  else if v < 0x10000 then [0xE0 + v / 4096, 0x80 + v / 64 % 64, 0x80 + v % 64]
  else [0xF0 + v / 262144, 0x80 + v / 4096 % 64, 0x80 + v / 64 % 64, 0x80 + v % 64]

/-- One percent-escape, e.g. byte 32 becomes `%20`. -/
def pctByte (b : Nat) : List Char :=
  ['%', hexDigit (b / 16), hexDigit (b % 16)]

/-- `encodeURIComponent` on a single character. -/
def encChar (c : Char) : List Char :=
  if isUnreserved c then [c] else (utf8Bytes c).flatMap pctByte

/-- `encodeURIComponent`, on the character list of a JS string. -/
def encodeURIComponent (s : List Char) : List Char :=
  s.flatMap encChar

/-- Parse one continuation-byte escape `%hh` with value in `[0x80, 0xC0)`,
returning its 6 payload bits as a number. -/
def contVal (p h1 h2 : Char) : Option Nat :=
  if p.toNat = 37 then
    match hexVal h1, hexVal h2 with
    | some a, some b =>
      let w := 16 * a + b
      if 0x80 ≤ w ∧ w < 0xC0 then some (w - 0x80) else none
    | _, _ => none
  else none

/-- Parse one percent-escape sequence (strict UTF-8) after an initial `%`:
the two hex digits give the lead byte, whose range determines how many
further `%hh` continuation escapes are read.  Returns the decoded character
and how many input characters were consumed.  Stray or overlong sequences and
surrogate code points are rejected (`none`), as `decodeURIComponent` throws
`URIError` on them. -/
def decodeEsc : List Char → Option (Char × Nat)
  | h1 :: h2 :: rest1 =>
    match hexVal h1, hexVal h2 with
    | some a1, some a2 =>
      let b0 := 16 * a1 + a2
      if b0 < 0x80 then some (Char.ofNat b0, 2)
      else if b0 < 0xC0 then none
      else if b0 < 0xE0 then
        match rest1 with
        | p1 :: h3 :: h4 :: _ =>
          match contVal p1 h3 h4 with
          | some c1 =>
            let v := (b0 - 0xC0) * 64 + c1
            if 0x80 ≤ v then some (Char.ofNat v, 5) else none
          | none => none
        | _ => none
      else if b0 < 0xF0 then
        match rest1 with
        | p1 :: h3 :: h4 :: p2 :: h5 :: h6 :: _ =>
          match contVal p1 h3 h4, contVal p2 h5 h6 with
          | some c1, some c2 =>
            let v := (b0 - 0xE0) * 4096 + c1 * 64 + c2
            if 0x800 ≤ v ∧ (v < 0xD800 ∨ 0xE000 ≤ v) then some (Char.ofNat v, 8) else none
          | _, _ => none
        | _ => none
      else if b0 < 0xF8 then
        match rest1 with
        | p1 :: h3 :: h4 :: p2 :: h5 :: h6 :: p3 :: h7 :: h8 :: _ =>
          match contVal p1 h3 h4, contVal p2 h5 h6, contVal p3 h7 h8 with
          | some c1, some c2, some c3 =>
            let v := (b0 - 0xF0) * 262144 + c1 * 4096 + c2 * 64 + c3
            if 0x10000 ≤ v ∧ v < 0x110000 then some (Char.ofNat v, 11) else none
          | _, _, _ => none
        | _ => none
      else none
    | _, _ => none
  | _ => none

/-- `decodeURIComponent`, on the character list of a JS string: percent
escapes are decoded as strict UTF-8 via `decodeEsc`; all other characters
pass through unchanged. -/
def decodeURIComponent : List Char → Option (List Char)
  | [] => some []
  | c :: rest =>
    if c.toNat = 37 then
      match decodeEsc rest with
      | some (d, n) => (decodeURIComponent (rest.drop n)).map (fun l => d :: l)
      | none => none
    else (decodeURIComponent rest).map (fun l => c :: l)
termination_by l => l.length
decreasing_by
  · simp [List.length_drop]
    omega
  · simp

/-- JS object property assignment `o[k] = v` on an association-list model of
a string-keyed object (a JS object holds at most one property per key):
overwrite in place if the key exists, else append. -/
def jsObjSet : List (String × String) → String → String → List (String × String)
  | [], k, v => [(k, v)]
  | p :: ps, k, v => if p.1 = k then (k, v) :: ps else p :: jsObjSet ps k v

/-! ### `src/unnamed/part_000` lines 24-41: urlSerialize / urlUnserialize -/

/-- One pair of `urlSerialize`'s loop body (part_000 line 28):
`encodeURIComponent(k) + '=' + encodeURIComponent(obj[k])`. -/
def encPair (kv : String × String) : List Char :=
  encodeURIComponent kv.1.data ++ '=' :: encodeURIComponent kv.2.data

/-- `urlSerialize` (part_000 lines 24-31): each own key/value pair becomes
`encPair`, pairs joined by `&` in iteration order (the source's
first-iteration flag is the same as intercalation).  The object is modelled
as its ordered key/value list. -/
def urlSerialize (obj : List (String × String)) : String :=
  String.mk (List.intercalate ['&'] (obj.map encPair))

/-- One step of `urlUnserialize`'s loop (part_000 lines 34-41): for each
field of `str.split('&')`, split on `=`, decode `kvp[0]` as the key and
`kvp[1]` as the value, and assign into the result object.  When the field has
no `=`, `kvp[1]` is `undefined` and `decodeURIComponent(undefined)` is the
string `"undefined"` (JS coerces the argument to a string).  A `URIError`
from `decodeURIComponent` aborts (`none`). -/
def urlUnserializeGo : List (List Char) → List (String × String) → Option (List (String × String))
  | [], acc => some acc
  | p :: ps, acc =>
    let kvp := p.splitOn '='
    match decodeURIComponent (kvp.headD []) with
    | none => none
    | some k =>
      match kvp[1]? with
      | none => urlUnserializeGo ps (jsObjSet acc (String.mk k) "undefined")
      | some rawv =>
        match decodeURIComponent rawv with
        | none => none
        | some v => urlUnserializeGo ps (jsObjSet acc (String.mk k) (String.mk v))

/-- `urlUnserialize` (part_000 lines 33-41).  `String.prototype.split` with a
one-character separator is `List.splitOn`: `""` splits to `[""]` and
consecutive separators yield empty fields, as in JS. -/
def urlUnserialize (str : String) : Option (List (String × String)) :=
  urlUnserializeGo (str.data.splitOn '&') []

/-! ### `src/mythril/js/mythril.js` lines 121-215: create / Widget

Widget instances live on a heap (`instances`, indexed by allocation order) so
that a closure's captured reference (`that` in `Widget._rpc`) can observe
mutation of `container` by `Widget._destroy` even after the registry entry is
replaced.  Observable hook/callback invocations are recorded in `trace`. -/

/-- One widget instance: `this.container` (the looked-up element, `none` when
`getElementById` returned null or after `_destroy` cleared it), `this.hostURL`
and `this._links` as set by the constructor (lines 147-152). -/
structure WInst where
  container : Option String
  hostURL : String
  links : List (String × String)
deriving DecidableEq

/-- Observable invocations of user-overridable hooks and RPC callbacks,
tagged by the heap index of the widget instance. -/
inductive WEvent
  | initEv (inst : Nat)
  | destroyEv (inst : Nat)
  | completeEv (inst : Nat) (method : String)
  | errorEv (inst : Nat) (status : Int) (text : String)
  | onerrorEv (inst : Nat) (method : String) (status : Int) (text : String)
deriving DecidableEq

/-- Global widget state: the instance heap, the module-level `widgets`
registry (element id to heap index, JS-object assignment semantics), and the
trace of hook invocations. -/
structure WState where
  instances : List WInst
  registry : List (String × Nat)
  trace : List WEvent
deriving DecidableEq

/-- JS object property assignment for the `widgets` registry (a JS object
holds at most one property per key): overwrite in place, else append. -/
def jsRegSet : List (String × Nat) → String → Nat → List (String × Nat)
  | [], k, v => [(k, v)]
  | p :: ps, k, v => if p.1 = k then (k, v) :: ps else p :: jsRegSet ps k v

/-- `Widget._destroy` (lines 155-158): call the overridable `destroy` hook,
then clear `this.container`. -/
def wDestroy (st : WState) (inst : Nat) : WState :=
  { st with
    trace := st.trace ++ [.destroyEv inst]
    instances := st.instances.modify (fun w => { w with container := none }) inst }

/-- `hostURL` normalization in `create` (lines 128-130): strip one trailing
slash.  `hostURL.substring(hostURL.length - 1)` is the one-character string of
the last character (empty for the empty string), so the test holds exactly
when the last character is `/`. -/
def stripTrailingSlash (s : String) : String :=
  if s.data.getLast? = some '/' then String.mk s.data.dropLast else s

/-- `mythril.create` (lines 125-133): look up the element for `id` in the
document (modelled as the list of element ids present), normalize `hostURL`,
destroy any existing widget registered at `id`, then construct the new
instance (whose constructor runs `init`, line 151) and store it in the
registry. -/
def create (st : WState) (doc : List String) (id : String) (hostURL : String)
    (links : List (String × String)) : WState :=
  let elem := if doc.contains id then some id else none
  let hostURL1 := stripTrailingSlash hostURL
  let st1 :=
    match st.registry.lookup id with
    | some w => wDestroy st w
    | none => st
  let instId := st1.instances.length
  { instances := st1.instances ++ [⟨elem, hostURL1, links⟩]
    registry := jsRegSet st1.registry id instId
    trace := st1.trace ++ [.initEv instId] }

/-- The URL composed by `Widget._rpc` (line 211): `this.hostURL + '/' + methodName`. -/
def wRpcURL (w : WInst) (methodName : String) : String :=
  w.hostURL ++ "/" ++ methodName

/-- The `oncomplete` closure of `Widget._rpc` (lines 197-199): invoke the
supplied `complete` callback (bound to the widget) only when `that.container`
is still present. -/
def wOnComplete (st : WState) (inst : Nat) (method : String) : WState :=
  match st.instances[inst]? with
  | some w =>
    if w.container.isSome then
      { st with trace := st.trace ++ [.completeEv inst method] }
    else st
  | none => st

/-- The `onerror` closure of `Widget._rpc` (lines 201-209): when
`that.container` is still present, invoke the supplied `error` callback if
one was given, otherwise the widget's `onerror` hook with the method name,
request data, status and text. -/
def wOnError (st : WState) (inst : Nat) (method : String) (hasError : Bool)
    (status : Int) (text : String) : WState :=
  match st.instances[inst]? with
  | some w =>
    if w.container.isSome then
      { st with trace := st.trace ++
          [if hasError then .errorEv inst status text else .onerrorEv inst method status text] }
    else st
  | none => st

/-! ### `src/mythril/js/mythril.js` lines 85-119: mythril.rpc

Each `rpc` call pushes two closures onto the shared `mythril._callbacks`
table (the complete slot at `cidx`, the error slot at `cidx + 1`) and
prepends a script element to the document head.  The three ways a call can
resolve — the server script invoking the complete slot, the server script
invoking the error slot, and the timeout timer — are events; each closure is
guarded by the call's captured `script` variable and ends in `cleanup()`,
which removes the script element, splices the two slots out of the table at
the captured index, and clears `script`/`complete`/`error`. -/

/-- The third positional argument of `rpc` as passed by a caller: a number,
an explicit `null`, omitted (`undefined`), or a function (the caller skipped
`timeout`, so lines 86-88 shift the arguments). -/
inductive RpcTimeoutArg
  | num (n : Nat)
  | null
  | undef
  | fn
deriving DecidableEq

/-- Lines 86-89 and 107: the timer actually scheduled.  A function argument
shifts to `undefined`; `undefined` defaults to 10000; `setTimeout` is called
unless the (post-shift) value is `null`, in which case no timer exists
(`none`). -/
def rpcEffectiveTimeout : RpcTimeoutArg → Option Nat
  | .num n => some n
  | .null => none
  | .undef => some 10000
  | .fn => some 10000

/-- The per-call closure state of one `rpc` invocation: the captured `cidx`,
whether the user supplied `complete`/`error` callbacks, the scheduled timer,
and the `script` variable (cleared by `cleanup`, and the idempotence guard of
all three closures). -/
structure RpcCallRec where
  cidx : Nat
  hasC : Bool
  hasE : Bool
  timeoutMs : Option Nat
  live : Bool
deriving DecidableEq

/-- Global state of the cross-origin transport: `mythril._callbacks` (each
slot tagged with its owning call and whether it is the error slot), the
script elements in the document head (call ids, head-first order), the call
records (indexed by call id, in creation order), and logs of the user
callback invocations. -/
structure RpcState where
  callbacks : List (Nat × Bool)
  headIds : List Nat
  calls : List RpcCallRec
  completeLog : List Nat
  errorLog : List (Nat × Int × String)
deriving DecidableEq

/-- The state with no pending calls (module load: `_callbacks: []`). -/
def rpcInit : RpcState :=
  ⟨[], [], [], [], []⟩

/-- One invocation of `mythril.rpc` (lines 85-119): push the complete slot at
`cidx = _callbacks.length` and the error slot right after it (two contiguous
slots), record the timer per `rpcEffectiveTimeout`, and insert the script
element as first child of head. -/
def rpcCall (st : RpcState) (tArg : RpcTimeoutArg) (hasC hasE : Bool) : RpcState :=
  let id := st.calls.length
  { callbacks := st.callbacks ++ [(id, false), (id, true)]
    headIds := id :: st.headIds
    calls := st.calls ++ [⟨st.callbacks.length, hasC, hasE, rpcEffectiveTimeout tArg, true⟩]
    completeLog := st.completeLog
    errorLog := st.errorLog }

/-- `cleanup` (lines 101-105): `head.removeChild(script)`,
`mythril._callbacks.splice(cidx, 2)` at the captured index, and clearing of
the closure variables `script`, `complete` and `error`. -/
def rpcCleanup (st : RpcState) (id : Nat) (c : RpcCallRec) : RpcState :=
  { st with
    headIds := st.headIds.erase id
    callbacks := st.callbacks.take c.cidx ++ st.callbacks.drop (c.cidx + 2)
    calls := st.calls.set id { c with live := false, hasC := false, hasE := false } }

/-- A resolution event addressed at one call's closures: the server script
invoking the call's complete slot (with response data), the server script
invoking its error slot, or the call's timeout timer firing. -/
inductive RpcEvent
  | completeEv (id : Nat)
  | errorEv (id : Nat) (status : Int) (text : String)
  | timeoutEv (id : Nat)
deriving DecidableEq

/-- One event-loop step.  Each closure (lines 93-95, 97-99, 108-110) is a
no-op once `script` is cleared; otherwise it invokes the user callback if one
was supplied — the timeout closure invoking `error(-1, '')` — and runs
`cleanup()`.  A timeout event only exists when a timer was scheduled
(line 107). -/
def rpcStep (st : RpcState) : RpcEvent → RpcState
  | .completeEv id =>
    match st.calls[id]? with
    | none => st
    | some c =>
      if c.live then
        rpcCleanup
          { st with completeLog := if c.hasC then st.completeLog ++ [id] else st.completeLog }
          id c
      else st
  | .errorEv id status text =>
    match st.calls[id]? with
    | none => st
    | some c =>
      if c.live then
        rpcCleanup
          { st with errorLog := if c.hasE then st.errorLog ++ [(id, status, text)] else st.errorLog }
          id c
      else st
  | .timeoutEv id =>
    match st.calls[id]? with
    | none => st
    | some c =>
      if c.timeoutMs.isSome then
        if c.live then
          rpcCleanup
            { st with errorLog := if c.hasE then st.errorLog ++ [(id, -1, "")] else st.errorLog }
            id c
        else st
      else st

/-- Number of user callback invocations recorded for call `id`. -/
def rpcCount (st : RpcState) (id : Nat) : Nat :=
  (st.completeLog.filter (fun j => j = id)).length +
    (st.errorLog.filter (fun e => e.1 = id)).length

/-- The call a resolution event is addressed at. -/
def rpcTarget : RpcEvent → Nat
  | .completeEv j => j
  | .errorEv j _ _ => j
  | .timeoutEv j => j

/-- An event that resolves call `id` when it is still pending, for a call
whose scheduled timer is `tm`: either slot invocation, or the timeout timer
firing — which exists only when a timer was scheduled (`tm.isSome`). -/
def rpcFires (tm : Option Nat) (id : Nat) : RpcEvent → Prop
  | .completeEv j => j = id
  | .errorEv j _ _ => j = id
  | .timeoutEv j => j = id ∧ tm.isSome

instance (tm : Option Nat) (id : Nat) (e : RpcEvent) : Decidable (rpcFires tm id e) := by
  cases e <;> simp only [rpcFires] <;> infer_instance

/-- Proof invariant: call `id` is still pending — `script` set, both user
callbacks present and uninvoked, timer `tm` — and nothing logged for it. -/
def rpcPendingInv (tm : Option Nat) (st : RpcState) (id : Nat) : Prop :=
  (∃ c, st.calls[id]? = some c ∧ c.live = true ∧ c.hasC = true ∧ c.hasE = true ∧
    c.timeoutMs = tm) ∧ rpcCount st id = 0

/-- Proof invariant: call `id` has resolved — `script` cleared — and exactly
one user callback invocation is logged for it. -/
def rpcResolved (st : RpcState) (id : Nat) : Prop :=
  (∃ c, st.calls[id]? = some c ∧ c.live = false) ∧ rpcCount st id = 1

/-! ### `src/unnamed/part_000` lines 74-128: mythril.post

The XHR is modelled by the fields the code reads: whether the response has
arrived (`readyState == 4`), its status/statusText/body, and the
`onreadystatechange` slot.  This code targets ActiveX-era XHR objects (see
the `ActiveXObject` fallback chain, lines 92-95), where reading `xhr.status`
before the request completes throws — which the `try`/`catch` of lines
112-113 swallows, leaving the initialized `-1`/`''`.  The IE-only
`requestsIE` bookkeeping (push/splice/unload-abort) touches no observable
modelled here and is omitted. -/

/-- The `params` argument of `post`: a pre-encoded URL-encoded string, or a
flat object with string keys and primitive values. -/
inductive JSParams
  | str (s : String)
  | obj (l : List (String × String))
deriving DecidableEq

/-- Line 85: `bodyText = typeof params == 'string' ? bodyText : urlSerialize(params)`.
The string branch reads the hoisted, still-uninitialized `bodyText` variable
itself (value `undefined`, here `none`) instead of `params`. -/
def post_bodyText : JSParams → Option String
  | .str _ => none
  | .obj l => some (urlSerialize l)

/-- The third positional argument of `post`. -/
inductive PostTimeoutArg
  | num (n : Nat)
  | null
  | undef
  | fn
deriving DecidableEq

/-- Lines 87-90: a function argument shifts the callbacks and leaves
`timeout` `undefined`; then `if (!timeout) timeout = 10000` replaces any
falsy value (`undefined`, `null`, `0`) with the default 10000. -/
def postEffectiveTimeout : PostTimeoutArg → Nat
  | .num n => if n = 0 then 10000 else n
  | .null => 10000
  | .undef => 10000
  | .fn => 10000

/-- The `onreadystatechange` slot of the XHR: never assigned, assigned
`onComplete` (line 125), or assigned `noop` (line 110). -/
inductive PostHandler
  | unset
  | active
  | noop
deriving DecidableEq

/-- An HTTP response as observed through the XHR once `readyState == 4`. -/
structure PostResponse where
  status : Nat
  statusText : String
  body : String
deriving DecidableEq

/-- State of one `post` call: the closure variable `xhr` (cleared at line
120; `complete`/`error` are cleared at the same moment, so `xhrLive` also
stands for their presence), the handler slot, whether the line-126 timer was
scheduled, the response if it has arrived, the user-callback invocation logs,
and whether a handler threw an uncaught `TypeError`. -/
structure PostState where
  xhrLive : Bool
  handler : PostHandler
  timerScheduled : Bool
  arrived : Option PostResponse
  completeLog : List String
  errorLog : List (Int × String)
  exn : Bool
deriving DecidableEq

/-- `onComplete(_, aborted)` (lines 106-121).  Line 109 returns unless
aborted or `readyState == 4`.  Line 110 sets `xhr.onreadystatechange = noop`
— a `TypeError` if `xhr` was already cleared by a previous resolution (the
duplicate invocation then performs nothing else).  Lines 112-113 read
status/statusText, keeping `-1`/`''` when unavailable; line 115 classifies
`Math.floor(status/100) == 2` as success; line 120 clears the closure
variables. -/
def postOnComplete (aborted : Bool) (st : PostState) : PostState :=
  if !aborted && !st.arrived.isSome then st
  else if !st.xhrLive then { st with exn := true }
  else
    let status : Int := match st.arrived with | some r => (r.status : Int) | none => -1
    let text : String := match st.arrived with | some r => r.statusText | none => ""
    let body : String := match st.arrived with | some r => r.body | none => ""
    if status.fdiv 100 = 2 then
      { st with
          handler := PostHandler.noop
          completeLog := st.completeLog ++ [body]
          xhrLive := false }
    else
      { st with
          handler := PostHandler.noop
          errorLog := st.errorLog ++ [(status, text)]
          xhrLive := false }

/-- The send tail of `post` (lines 123-127): if the request completed
synchronously (`readyState == 4` already), run `onComplete()` immediately
and register neither handler nor timer; otherwise install `onComplete` as
the readystatechange handler and schedule the timeout timer. -/
def postSend (syncResp : Option PostResponse) : PostState :=
  if syncResp.isSome then
    postOnComplete false ⟨true, PostHandler.unset, false, syncResp, [], [], false⟩
  else
    ⟨true, PostHandler.active, true, none, [], [], false⟩

/-- Events driving one `post` call: the response arriving (`readyState`
becomes 4 and the readystatechange handler fires), an intermediate
readystatechange, or the line-126 timer firing `onComplete(0, true)`. -/
inductive PostEvent
  | arrive (r : PostResponse)
  | progress
  | timer
deriving DecidableEq

/-- One event-loop step for a `post` call. -/
def postStep (st : PostState) : PostEvent → PostState
  | .arrive r =>
    let st1 := { st with arrived := some r }
    if st.handler = PostHandler.active then postOnComplete false st1 else st1
  | .progress =>
    if st.handler = PostHandler.active then postOnComplete false st else st
  | .timer =>
    if st.timerScheduled then postOnComplete true st else st

/-- Number of user callback invocations of one `post` call. -/
def postCount (st : PostState) : Nat :=
  st.completeLog.length + st.errorLog.length

/-- Proof invariant: the async `post` call is still pending (the line-126
timer is scheduled on this path). -/
def postPending (st : PostState) : Prop :=
  st.xhrLive = true ∧ st.handler = PostHandler.active ∧ st.timerScheduled = true ∧
    st.arrived = none ∧ postCount st = 0

/-- Proof invariant: the `post` call has resolved, with exactly one user
callback invocation logged. -/
def postDone (st : PostState) : Prop :=
  st.xhrLive = false ∧ st.handler ≠ PostHandler.active ∧ postCount st = 1

/-- An event that resolves a pending async `post` call: the response
arriving, or the timeout timer (always scheduled on the async path). -/
def postFires : PostEvent → Prop
  | .arrive _ => True
  | .progress => False
  | .timer => True

instance (e : PostEvent) : Decidable (postFires e) := by
  cases e <;> simp only [postFires] <;> infer_instance

/-! ### Theorems -/

/-- `(Char.ofNat n).toNat = n` for a valid scalar value. -/
theorem toNat_ofNat_valid {n : Nat} (h : n.isValidChar) : (Char.ofNat n).toNat = n := by
  rw [Char.ofNat, dif_pos h]
  rfl

/-- C7: serializing `{a: "1", b: "two words"}` yields `a=1&b=two%20words`,
pairs in iteration order, keys and values percent-encoded. -/
theorem claim_C7 : urlSerialize [("a", "1"), ("b", "two words")] = "a=1&b=two%20words" := by
  decide

/-- Looking up the just-assigned key in the registry yields the new value. -/
theorem lookup_jsRegSet (o : List (String × Nat)) (k : String) (v : Nat) :
    (jsRegSet o k v).lookup k = some v := by
  induction o with
  | nil => simp [jsRegSet, List.lookup]
  | cons p ps ih =>
    by_cases hp : p.1 = k
    · simp [jsRegSet, hp, List.lookup]
    · simp only [jsRegSet, if_neg hp, List.lookup]
      have hb : (k == p.1) = false := by simp [Ne.symm hp]
      rw [hb]
      exact ih

/-- `create` leaves the registry as an assignment of the fresh instance index
to `id`, whichever branch the existing-widget check takes. -/
theorem create_registry (st : WState) (doc : List String) (id hostURL : String)
    (links : List (String × String)) :
    (create st doc id hostURL links).registry = jsRegSet st.registry id st.instances.length := by
  unfold create
  cases hm : st.registry.lookup id <;> simp [hm, wDestroy, List.length_modify]

/-- `create` appends exactly one instance to the heap. -/
theorem create_instances_length (st : WState) (doc : List String) (id hostURL : String)
    (links : List (String × String)) :
    (create st doc id hostURL links).instances.length = st.instances.length + 1 := by
  unfold create
  cases hm : st.registry.lookup id <;> simp [hm, wDestroy, List.length_modify]

/-- The instance `create` stores at the fresh heap index. -/
theorem create_instances_new (st : WState) (doc : List String) (id hostURL : String)
    (links : List (String × String)) :
    (create st doc id hostURL links).instances[st.instances.length]? =
      some ⟨if doc.contains id then some id else none, stripTrailingSlash hostURL, links⟩ := by
  unfold create
  cases hm : st.registry.lookup id with
  | none => simp [hm, List.getElem?_concat_length]
  | some w =>
    simp [wDestroy, List.getElem?_append_right, List.length_modify]

/-- Trace of `create` when a widget was already registered at `id`: the old
widget's `destroy` hook fires, then the new widget's `init`. -/
theorem create_trace_some (st : WState) (doc : List String) (id hostURL : String)
    (links : List (String × String)) (w : Nat) (hm : st.registry.lookup id = some w) :
    (create st doc id hostURL links).trace =
      st.trace ++ [WEvent.destroyEv w, WEvent.initEv st.instances.length] := by
  unfold create
  rw [hm]
  simp [wDestroy]

/-- Trace of `create` when no widget was registered at `id`. -/
theorem create_trace_none (st : WState) (doc : List String) (id hostURL : String)
    (links : List (String × String)) (hm : st.registry.lookup id = none) :
    (create st doc id hostURL links).trace = st.trace ++ [WEvent.initEv st.instances.length] := by
  unfold create
  rw [hm]

/-- C2: calling `create` twice with the same element id invokes the first
widget's `destroy` hook exactly once, before the second widget's `init`, and
afterward the registry maps the id only to the second instance. -/
theorem claim_C2 (st : WState) (doc : List String) (id hostURL1 hostURL2 : String)
    (links1 links2 : List (String × String))
    (hwf : ∀ w, st.registry.lookup id = some w → w < st.instances.length)
    (hfresh : WEvent.destroyEv st.instances.length ∉ st.trace) :
    (create (create st doc id hostURL1 links1) doc id hostURL2 links2).trace =
        (create st doc id hostURL1 links1).trace ++
          [WEvent.destroyEv st.instances.length, WEvent.initEv (st.instances.length + 1)] ∧
      (create (create st doc id hostURL1 links1) doc id hostURL2 links2).registry.lookup id =
        some (st.instances.length + 1) ∧
      (create (create st doc id hostURL1 links1) doc id hostURL2 links2).trace.count
        (WEvent.destroyEv st.instances.length) = 1 := by
  have f2 : (create st doc id hostURL1 links1).registry.lookup id =
      some st.instances.length := by
    rw [create_registry, lookup_jsRegSet]
  have f1 := create_instances_length st doc id hostURL1 links1
  have ftr : (create (create st doc id hostURL1 links1) doc id hostURL2 links2).trace =
      (create st doc id hostURL1 links1).trace ++
        [WEvent.destroyEv st.instances.length, WEvent.initEv (st.instances.length + 1)] := by
    rw [create_trace_some _ _ _ _ _ _ f2, f1]
  refine ⟨ftr, ?_, ?_⟩
  · rw [create_registry, lookup_jsRegSet, f1]
  · rw [ftr]
    have hnot : WEvent.destroyEv st.instances.length ∉ (create st doc id hostURL1 links1).trace := by
      cases hm : st.registry.lookup id with
      | none =>
        rw [create_trace_none _ _ _ _ _ hm]
        simp [hfresh]
      | some w =>
        rw [create_trace_some _ _ _ _ _ _ hm]
        have hw : w < st.instances.length := hwf w hm
        simp [hfresh, WEvent.destroyEv.injEq, Nat.ne_of_lt hw, Ne.symm (Nat.ne_of_lt hw)]
    rw [List.count_append, List.count_eq_zero.mpr hnot]
    simp

/-- C2 witness: the two-`create` scenario from the empty initial state. -/
theorem claim_C2_witness :
    (create (create ⟨[], [], []⟩ ["w"] "w" "http://h" []) ["w"] "w" "http://h" []).trace =
        (create ⟨[], [], []⟩ ["w"] "w" "http://h" []).trace ++
          [WEvent.destroyEv 0, WEvent.initEv (0 + 1)] ∧
      (create (create ⟨[], [], []⟩ ["w"] "w" "http://h" []) ["w"] "w" "http://h" []).registry.lookup "w" =
        some (0 + 1) ∧
      (create (create ⟨[], [], []⟩ ["w"] "w" "http://h" []) ["w"] "w" "http://h" []).trace.count
        (WEvent.destroyEv 0) = 1 :=
  claim_C2 ⟨[], [], []⟩ ["w"] "w" "http://h" "http://h" [] []
    (fun w h => by simp [List.lookup] at h) (by simp)

/-- C4: once a widget has been destroyed (its `container` cleared by
`_destroy`), both dispatch closures of a pending `_rpc` call are no-ops:
neither the supplied callbacks nor the `onerror` hook fire, and the state is
unchanged. -/
theorem claim_C4 (st : WState) (i : Nat) (method : String) (hasErr : Bool)
    (status : Int) (text : String) (hi : i < st.instances.length) :
    wOnComplete (wDestroy st i) i method = wDestroy st i ∧
    wOnError (wDestroy st i) i method hasErr status text = wDestroy st i := by
  have hget : (wDestroy st i).instances[i]? =
      some { st.instances[i] with container := none } := by
    simp [wDestroy, List.getElem?_modify_eq, List.getElem?_eq_getElem hi]
  constructor
  · simp [wOnComplete, hget]
  · simp [wOnError, hget]

/-- C4 witness: a one-widget state, destroyed, then both dispatches no-op. -/
theorem claim_C4_witness :
    wOnComplete (wDestroy ⟨[⟨some "e", "http://h", []⟩], [("e", 0)], []⟩ 0) 0 "m" =
        wDestroy ⟨[⟨some "e", "http://h", []⟩], [("e", 0)], []⟩ 0 ∧
      wOnError (wDestroy ⟨[⟨some "e", "http://h", []⟩], [("e", 0)], []⟩ 0) 0 "m" false (-1) "" =
        wDestroy ⟨[⟨some "e", "http://h", []⟩], [("e", 0)], []⟩ 0 :=
  claim_C4 ⟨[⟨some "e", "http://h", []⟩], [("e", 0)], []⟩ 0 "m" false (-1) "" (by decide)

/-- Stripping the single trailing slash recovers the base URL. -/
theorem stripTrailingSlash_concat (base : String) :
    stripTrailingSlash (base ++ "/") = base := by
  unfold stripTrailingSlash
  rw [String.data_append]
  have h1 : ("/" : String).data = ['/'] := rfl
  rw [h1, List.getLast?_concat, if_pos rfl, List.dropLast_concat]

/-- C8: for a `hostURL` ending in exactly one slash, `create` strips that
slash, so the widget's `_rpc` composes `hostURL-without-slash + '/' +
methodName`, with exactly one slash at the junction. -/
theorem claim_C8 (st : WState) (doc : List String) (id : String)
    (links : List (String × String)) (base method : String)
    (_hbase : base.data.getLast? ≠ some '/') :
    ((create st doc id (base ++ "/") links).instances[st.instances.length]?).map
      (fun w => wRpcURL w method) = some (base ++ "/" ++ method) := by
  rw [create_instances_new]
  simp [wRpcURL, stripTrailingSlash_concat]

/-- C8 witness: `create(..., hostURL="http://h/api/")` yields RPC URLs
`http://h/api/m`. -/
theorem claim_C8_witness :
    ((create ⟨[], [], []⟩ ["w"] "w" ("http://h/api" ++ "/") []).instances[0]?).map
      (fun w => wRpcURL w "m") = some ("http://h/api" ++ "/" ++ "m") :=
  claim_C8 ⟨[], [], []⟩ ["w"] "w" [] "http://h/api" "m" (by decide)

/-- `cleanup` does not touch the invocation logs. -/
theorem rpcCount_cleanup (st : RpcState) (id j : Nat) (c : RpcCallRec) :
    rpcCount (rpcCleanup st id c) j = rpcCount st j := rfl

/-- `cleanup` of one call leaves every other call's record unchanged. -/
theorem calls_cleanup_ne (st : RpcState) (id : Nat) (c : RpcCallRec) (j : Nat)
    (h : j ≠ id) : (rpcCleanup st id c).calls[j]? = st.calls[j]? := by
  simp [rpcCleanup, List.getElem?_set_ne (Ne.symm h)]

/-- `cleanup` clears the call's own `script`/`complete`/`error` variables. -/
theorem calls_cleanup_self (st : RpcState) (id : Nat) (c : RpcCallRec)
    (h : id < st.calls.length) :
    (rpcCleanup st id c).calls[id]? =
      some { c with live := false, hasC := false, hasE := false } := by
  simp [rpcCleanup, List.getElem?_set_self h]

/-- Characterization of `rpcStep` on a live complete-slot invocation. -/
theorem rpcStep_complete_some (st : RpcState) (j : Nat) (cj : RpcCallRec)
    (hcj : st.calls[j]? = some cj) (hl : cj.live = true) :
    rpcStep st (RpcEvent.completeEv j) =
      rpcCleanup
        { st with completeLog := if cj.hasC then st.completeLog ++ [j] else st.completeLog }
        j cj := by
  simp [rpcStep, hcj, hl]

/-- Characterization of `rpcStep` on a live error-slot invocation. -/
theorem rpcStep_error_some (st : RpcState) (j : Nat) (cj : RpcCallRec)
    (status : Int) (text : String)
    (hcj : st.calls[j]? = some cj) (hl : cj.live = true) :
    rpcStep st (RpcEvent.errorEv j status text) =
      rpcCleanup
        { st with errorLog := if cj.hasE then st.errorLog ++ [(j, status, text)] else st.errorLog }
        j cj := by
  simp [rpcStep, hcj, hl]

/-- Characterization of `rpcStep` on a live call's timeout firing. -/
theorem rpcStep_timeout_some (st : RpcState) (j : Nat) (cj : RpcCallRec)
    (hcj : st.calls[j]? = some cj) (hl : cj.live = true)
    (ht : cj.timeoutMs.isSome = true) :
    rpcStep st (RpcEvent.timeoutEv j) =
      rpcCleanup
        { st with errorLog := if cj.hasE then st.errorLog ++ [(j, -1, "")] else st.errorLog }
        j cj := by
  simp [rpcStep, hcj, hl, ht]

/-- With `timeout === null` no timer was scheduled (line 107), so the
timeout event is impossible and changes nothing. -/
theorem rpcStep_timeout_noTimer (st : RpcState) (j : Nat) (cj : RpcCallRec)
    (hcj : st.calls[j]? = some cj) (ht : cj.timeoutMs = none) :
    rpcStep st (RpcEvent.timeoutEv j) = st := by
  simp [rpcStep, hcj, ht]

/-- Once `script` is cleared, every one of the call's closures is a no-op:
the state is left entirely unchanged. -/
theorem rpcStep_dead (st : RpcState) (id : Nat) (c : RpcCallRec)
    (hc : st.calls[id]? = some c) (hlive : c.live = false) :
    rpcStep st (RpcEvent.completeEv id) = st ∧
      (∀ status text, rpcStep st (RpcEvent.errorEv id status text) = st) ∧
      rpcStep st (RpcEvent.timeoutEv id) = st := by
  refine ⟨?_, fun status text => ?_, ?_⟩ <;> simp [rpcStep, hc, hlive]

/-- An event addressed at a different call neither changes this call's
closure record nor its invocation count. -/
theorem rpcStep_untargeted (st : RpcState) (e : RpcEvent) (id : Nat)
    (h : rpcTarget e ≠ id) :
    (rpcStep st e).calls[id]? = st.calls[id]? ∧
      rpcCount (rpcStep st e) id = rpcCount st id := by
  cases e with
  | completeEv j =>
    have hj : j ≠ id := h
    cases hcj : st.calls[j]? with
    | none => constructor <;> simp [rpcStep, hcj]
    | some cj =>
      by_cases hl : cj.live = true
      · rw [rpcStep_complete_some st j cj hcj hl]
        refine ⟨calls_cleanup_ne _ _ _ _ (Ne.symm hj), ?_⟩
        rw [rpcCount_cleanup]
        by_cases hC : cj.hasC = true <;>
          simp [hC, rpcCount, List.filter_append, hj]
      · have hl' : cj.live = false := by simpa using hl
        rw [(rpcStep_dead st j cj hcj hl').1]
        exact ⟨rfl, rfl⟩
  | errorEv j status text =>
    have hj : j ≠ id := h
    cases hcj : st.calls[j]? with
    | none => constructor <;> simp [rpcStep, hcj]
    | some cj =>
      by_cases hl : cj.live = true
      · rw [rpcStep_error_some st j cj status text hcj hl]
        refine ⟨calls_cleanup_ne _ _ _ _ (Ne.symm hj), ?_⟩
        rw [rpcCount_cleanup]
        by_cases hE : cj.hasE = true <;>
          simp [hE, rpcCount, List.filter_append, hj]
      · have hl' : cj.live = false := by simpa using hl
        rw [(rpcStep_dead st j cj hcj hl').2.1 status text]
        exact ⟨rfl, rfl⟩
  | timeoutEv j =>
    have hj : j ≠ id := h
    cases hcj : st.calls[j]? with
    | none => constructor <;> simp [rpcStep, hcj]
    | some cj =>
      by_cases ht : cj.timeoutMs.isSome = true
      · by_cases hl : cj.live = true
        · rw [rpcStep_timeout_some st j cj hcj hl ht]
          refine ⟨calls_cleanup_ne _ _ _ _ (Ne.symm hj), ?_⟩
          rw [rpcCount_cleanup]
          by_cases hE : cj.hasE = true <;>
            simp [hE, rpcCount, List.filter_append, hj]
        · have hl' : cj.live = false := by simpa using hl
          rw [(rpcStep_dead st j cj hcj hl').2.2]
          exact ⟨rfl, rfl⟩
      · have ht' : cj.timeoutMs = none := by
          cases htm : cj.timeoutMs <;> simp [htm] at ht ⊢
        rw [rpcStep_timeout_noTimer st j cj hcj ht']
        exact ⟨rfl, rfl⟩

/-- A firing event on a still-pending call runs the user callback (if
supplied) and then `cleanup()`, with the appropriate log appended. -/
theorem rpcStep_fired_eq (st : RpcState) (id : Nat) (c : RpcCallRec) (e : RpcEvent)
    (hc : st.calls[id]? = some c) (hlive : c.live = true)
    (hfire : rpcFires c.timeoutMs id e) :
    ∃ log1 log2,
      rpcStep st e = rpcCleanup { st with completeLog := log1, errorLog := log2 } id c := by
  cases e with
  | completeEv j =>
    have hj : j = id := hfire
    subst hj
    exact ⟨_, _, rpcStep_complete_some st j c hc hlive⟩
  | errorEv j status text =>
    have hj : j = id := hfire
    subst hj
    exact ⟨_, _, rpcStep_error_some st j c status text hc hlive⟩
  | timeoutEv j =>
    obtain ⟨hj, ht⟩ := hfire
    subst hj
    exact ⟨_, _, rpcStep_timeout_some st j c hc hlive ht⟩

/-- A pending call stays pending under any event that does not fire it. -/
theorem rpcPending_step_nofire (tm : Option Nat) (st : RpcState) (id : Nat) (e : RpcEvent)
    (h : rpcPendingInv tm st id) (hnf : ¬ rpcFires tm id e) :
    rpcPendingInv tm (rpcStep st e) id := by
  obtain ⟨⟨c, hc, hlive, hC, hE, htm⟩, hcount⟩ := h
  by_cases hj : rpcTarget e = id
  · cases e with
    | completeEv j => exact absurd (show rpcFires tm id (RpcEvent.completeEv j) from hj) hnf
    | errorEv j status text =>
      exact absurd (show rpcFires tm id (RpcEvent.errorEv j status text) from hj) hnf
    | timeoutEv j =>
      have hj' : j = id := hj
      have hnone : tm = none := by
        cases htmv : tm with
        | none => rfl
        | some n => exact absurd ⟨hj', by rw [htmv]; rfl⟩ hnf
      subst hj'
      rw [rpcStep_timeout_noTimer st j c hc (htm.trans hnone)]
      exact ⟨⟨c, hc, hlive, hC, hE, htm⟩, hcount⟩
  · obtain ⟨h1, h2⟩ := rpcStep_untargeted st e id hj
    exact ⟨⟨c, h1.trans hc, hlive, hC, hE, htm⟩, h2.trans hcount⟩

/-- A firing event on a pending call resolves it: `script` is cleared and
exactly one user-callback invocation is now logged. -/
theorem rpcStep_fired_resolved (tm : Option Nat) (st : RpcState) (id : Nat) (e : RpcEvent)
    (h : rpcPendingInv tm st id) (hf : rpcFires tm id e) :
    rpcResolved (rpcStep st e) id := by
  obtain ⟨⟨c, hc, hlive, hC, hE, htm⟩, hcount⟩ := h
  have hlt : id < st.calls.length := (List.getElem?_eq_some_iff.mp hc).choose
  simp only [rpcCount] at hcount
  cases e with
  | completeEv j =>
    have hj : j = id := hf
    subst hj
    rw [rpcStep_complete_some st j c hc hlive]
    refine ⟨⟨_, calls_cleanup_self _ _ _ hlt, rfl⟩, ?_⟩
    rw [rpcCount_cleanup]
    simp only [rpcCount, hC, if_true]
    simp [List.filter_append]
    omega
  | errorEv j status text =>
    have hj : j = id := hf
    subst hj
    rw [rpcStep_error_some st j c status text hc hlive]
    refine ⟨⟨_, calls_cleanup_self _ _ _ hlt, rfl⟩, ?_⟩
    rw [rpcCount_cleanup]
    simp only [rpcCount, hE, if_true]
    simp [List.filter_append]
    omega
  | timeoutEv j =>
    obtain ⟨hj, ht⟩ := hf
    subst hj
    rw [rpcStep_timeout_some st j c hc hlive (by rw [htm]; exact ht)]
    refine ⟨⟨_, calls_cleanup_self _ _ _ hlt, rfl⟩, ?_⟩
    rw [rpcCount_cleanup]
    simp only [rpcCount, hE, if_true]
    simp [List.filter_append]
    omega

/-- Resolution is absorbing: after a call has resolved, no further event
changes its record or its single logged invocation. -/
theorem rpcResolved_step (st : RpcState) (id : Nat) (e : RpcEvent)
    (h : rpcResolved st id) : rpcResolved (rpcStep st e) id := by
  obtain ⟨⟨c, hc, hlive⟩, hcount⟩ := h
  by_cases hj : rpcTarget e = id
  · cases e with
    | completeEv j =>
      have hj' : j = id := hj
      subst hj'
      rw [(rpcStep_dead st j c hc hlive).1]
      exact ⟨⟨c, hc, hlive⟩, hcount⟩
    | errorEv j status text =>
      have hj' : j = id := hj
      subst hj'
      rw [(rpcStep_dead st j c hc hlive).2.1 status text]
      exact ⟨⟨c, hc, hlive⟩, hcount⟩
    | timeoutEv j =>
      have hj' : j = id := hj
      subst hj'
      rw [(rpcStep_dead st j c hc hlive).2.2]
      exact ⟨⟨c, hc, hlive⟩, hcount⟩
  · obtain ⟨h1, h2⟩ := rpcStep_untargeted st e id hj
    exact ⟨⟨c, h1.trans hc, hlive⟩, h2.trans hcount⟩

/-- Resolution persists along any further event trace. -/
theorem rpcResolved_foldl (st : RpcState) (id : Nat) (evs : List RpcEvent)
    (h : rpcResolved st id) : rpcResolved (evs.foldl rpcStep st) id := by
  induction evs generalizing st with
  | nil => exact h
  | cons e rest ih => exact ih _ (rpcResolved_step st id e h)

/-- A pending call is resolved by any event trace containing a firing event. -/
theorem rpcPending_foldl_fire (tm : Option Nat) (st : RpcState) (id : Nat)
    (evs : List RpcEvent) (h : rpcPendingInv tm st id)
    (hf : ∃ e ∈ evs, rpcFires tm id e) :
    rpcResolved (evs.foldl rpcStep st) id := by
  induction evs generalizing st with
  | nil =>
    obtain ⟨e, he, _⟩ := hf
    exact absurd he (List.not_mem_nil e)
  | cons e rest ih =>
    by_cases hfe : rpcFires tm id e
    · exact rpcResolved_foldl _ _ rest (rpcStep_fired_resolved tm st id e h hfe)
    · obtain ⟨e', he', hf'⟩ := hf
      rcases List.mem_cons.mp he' with rfl | hmem
      · exact absurd hf' hfe
      · exact ih _ (rpcPending_step_nofire tm st id e h hfe) ⟨e', hmem, hf'⟩

/-- Exactly-once for one `rpc` call with both callbacks supplied, over any
event trace that eventually fires it (under the default or a numeric timeout
the timer alone guarantees such an event). -/
theorem rpc_exactly_once (st : RpcState) (tArg : RpcTimeoutArg) (evs : List RpcEvent)
    (hcount0 : rpcCount st st.calls.length = 0)
    (hfire : ∃ e ∈ evs, rpcFires (rpcEffectiveTimeout tArg) st.calls.length e) :
    rpcCount (evs.foldl rpcStep (rpcCall st tArg true true)) st.calls.length = 1 := by
  have hpend : rpcPendingInv (rpcEffectiveTimeout tArg) (rpcCall st tArg true true)
      st.calls.length := by
    constructor
    · refine ⟨⟨st.callbacks.length, true, true, rpcEffectiveTimeout tArg, true⟩, ?_, rfl, rfl,
        rfl, rfl⟩
      simp [rpcCall, List.getElem?_concat_length]
    · exact hcount0
  exact (rpcPending_foldl_fire _ _ _ evs hpend hfire).2

/-- C3 counterexample: two calls pending at once, the earlier-registered one
resolving first.  The second call (id 1, slots at table positions 2 and 3)
then resolves — its user callback runs (`completeLog = [0, 1]`) and its
`script` is cleared — but `cleanup`'s `splice(cidx, 2)` uses the stale
captured index 2 on a table that has shifted down to length 2, so the call's
two slots `(1, false), (1, true)` are NOT removed from `_callbacks`. -/
theorem claim_C3_counterexample :
    (rpcStep (rpcStep (rpcCall (rpcCall rpcInit (RpcTimeoutArg.num 1000) true true)
          (RpcTimeoutArg.num 1000) true true)
        (RpcEvent.completeEv 0)) (RpcEvent.completeEv 1)).callbacks =
      [(1, false), (1, true)] ∧
    (rpcStep (rpcStep (rpcCall (rpcCall rpcInit (RpcTimeoutArg.num 1000) true true)
          (RpcTimeoutArg.num 1000) true true)
        (RpcEvent.completeEv 0)) (RpcEvent.completeEv 1)).calls[1]? =
      some ⟨2, false, false, some 1000, false⟩ ∧
    (rpcStep (rpcStep (rpcCall (rpcCall rpcInit (RpcTimeoutArg.num 1000) true true)
          (RpcTimeoutArg.num 1000) true true)
        (RpcEvent.completeEv 0)) (RpcEvent.completeEv 1)).completeLog = [0, 1] := by
  decide

/-- C3 (amended): after a pending `rpc` call's first resolution (success,
error, or timeout), the injected script element has been removed from the
document head and — provided the call's two slots still sit at the captured
index `cidx`, i.e. every table entry registered before them is still present
(as under FIFO resolution of concurrent calls, or a single outstanding
call) — both slots are removed while all other entries survive; and any
later invocation of either of the call's slot functions (or its timer)
invokes neither the user callbacks nor cleanup again: the state is
unchanged.  Only when an earlier-registered call's cleanup has already
shifted the table does the removal miss (the counterexample above). -/
theorem claim_C3 (st : RpcState) (id : Nat) (c : RpcCallRec) (e : RpcEvent)
    (pre post : List (Nat × Bool))
    (hc : st.calls[id]? = some c) (hlive : c.live = true)
    (hcb : st.callbacks = pre ++ [(id, false), (id, true)] ++ post)
    (hcidx : c.cidx = pre.length)
    (hhead : st.headIds.count id = 1)
    (hfire : rpcFires c.timeoutMs id e) :
    (rpcStep st e).headIds.count id = 0 ∧
      (rpcStep st e).callbacks = pre ++ post ∧
      (∃ c', (rpcStep st e).calls[id]? = some c' ∧ c'.live = false) ∧
      rpcStep (rpcStep st e) (RpcEvent.completeEv id) = rpcStep st e ∧
      (∀ status text, rpcStep (rpcStep st e) (RpcEvent.errorEv id status text) = rpcStep st e) ∧
      rpcStep (rpcStep st e) (RpcEvent.timeoutEv id) = rpcStep st e := by
  obtain ⟨log1, log2, hstep⟩ := rpcStep_fired_eq st id c e hc hlive hfire
  have hlt : id < st.calls.length := (List.getElem?_eq_some_iff.mp hc).choose
  have hcalls : (rpcStep st e).calls[id]? =
      some { c with live := false, hasC := false, hasE := false } := by
    rw [hstep]
    exact calls_cleanup_self _ _ _ hlt
  refine ⟨?_, ?_, ⟨_, hcalls, rfl⟩, ?_, fun status text => ?_, ?_⟩
  · rw [hstep]
    show (st.headIds.erase id).count id = 0
    rw [List.count_erase_self, hhead]
  · rw [hstep]
    show st.callbacks.take c.cidx ++ st.callbacks.drop (c.cidx + 2) = pre ++ post
    rw [hcb, hcidx, List.append_assoc, List.take_left' rfl, ← List.append_assoc,
      List.drop_left' (by simp)]
  · exact (rpcStep_dead _ _ _ hcalls rfl).1
  · exact (rpcStep_dead _ _ _ hcalls rfl).2.1 status text
  · exact (rpcStep_dead _ _ _ hcalls rfl).2.2

/-- C3 witness: two concurrent calls resolving in creation order (FIFO) —
the first call (slots at the captured index 0, with the second call's
entries after them) resolves by its complete slot; its slots are excised
while the second call's two entries survive. -/
theorem claim_C3_witness :
    (rpcStep (rpcCall (rpcCall rpcInit RpcTimeoutArg.undef true true) RpcTimeoutArg.undef
        true true) (RpcEvent.completeEv 0)).headIds.count 0 = 0 ∧
      (rpcStep (rpcCall (rpcCall rpcInit RpcTimeoutArg.undef true true) RpcTimeoutArg.undef
          true true) (RpcEvent.completeEv 0)).callbacks = [(1, false), (1, true)] ∧
      (∃ c', (rpcStep (rpcCall (rpcCall rpcInit RpcTimeoutArg.undef true true)
          RpcTimeoutArg.undef true true) (RpcEvent.completeEv 0)).calls[0]? = some c' ∧
        c'.live = false) ∧
      rpcStep (rpcStep (rpcCall (rpcCall rpcInit RpcTimeoutArg.undef true true)
            RpcTimeoutArg.undef true true) (RpcEvent.completeEv 0)) (RpcEvent.completeEv 0) =
        rpcStep (rpcCall (rpcCall rpcInit RpcTimeoutArg.undef true true) RpcTimeoutArg.undef
          true true) (RpcEvent.completeEv 0) ∧
      (∀ status text,
        rpcStep (rpcStep (rpcCall (rpcCall rpcInit RpcTimeoutArg.undef true true)
              RpcTimeoutArg.undef true true) (RpcEvent.completeEv 0))
            (RpcEvent.errorEv 0 status text) =
          rpcStep (rpcCall (rpcCall rpcInit RpcTimeoutArg.undef true true) RpcTimeoutArg.undef
            true true) (RpcEvent.completeEv 0)) ∧
      rpcStep (rpcStep (rpcCall (rpcCall rpcInit RpcTimeoutArg.undef true true)
            RpcTimeoutArg.undef true true) (RpcEvent.completeEv 0)) (RpcEvent.timeoutEv 0) =
        rpcStep (rpcCall (rpcCall rpcInit RpcTimeoutArg.undef true true) RpcTimeoutArg.undef
          true true) (RpcEvent.completeEv 0) :=
  claim_C3 (rpcCall (rpcCall rpcInit RpcTimeoutArg.undef true true) RpcTimeoutArg.undef
      true true) 0 ⟨0, true, true, some 10000, true⟩ (RpcEvent.completeEv 0)
    [] [(1, false), (1, true)] (by decide) (by decide) (by decide) (by decide) (by decide) rfl

/-- `onComplete` once the response has arrived: handler silenced, exactly one
user callback invoked by the 2xx classification, closure variables cleared. -/
theorem postOnComplete_arrived (st : PostState) (r : PostResponse) (ab : Bool)
    (hx : st.xhrLive = true) (ha : st.arrived = some r) :
    postOnComplete ab st =
      if (r.status : Int).fdiv 100 = 2 then
        { st with
            handler := PostHandler.noop
            completeLog := st.completeLog ++ [r.body]
            xhrLive := false }
      else
        { st with
            handler := PostHandler.noop
            errorLog := st.errorLog ++ [((r.status : Int), r.statusText)]
            xhrLive := false } := by
  unfold postOnComplete
  simp [hx, ha]

/-- `onComplete(0, true)` from the timer with no response arrived: status
stays `-1`, statusText stays `''`, and the error callback is invoked. -/
theorem postOnComplete_timeoutPath (st : PostState)
    (hx : st.xhrLive = true) (ha : st.arrived = none) :
    postOnComplete true st =
      { st with
          handler := PostHandler.noop
          errorLog := st.errorLog ++ [(-1, "")]
          xhrLive := false } := by
  unfold postOnComplete
  simp [hx, ha]

/-- A duplicate `onComplete(0, true)` after resolution: line 110 assigns a
property on the cleared `xhr` and throws; no callback is invoked. -/
theorem postOnComplete_dead (st : PostState) (hx : st.xhrLive = false) :
    postOnComplete true st = { st with exn := true } := by
  unfold postOnComplete
  simp [hx]

/-- A resolved `post` call stays resolved: no later event invokes another
callback. -/
theorem postDone_step (st : PostState) (e : PostEvent) (h : postDone st) :
    postDone (postStep st e) := by
  obtain ⟨hx, hh, hc⟩ := h
  cases e with
  | arrive r =>
    have hstep : postStep st (PostEvent.arrive r) = { st with arrived := some r } := by
      simp only [postStep]
      rw [if_neg hh]
    rw [hstep]
    exact ⟨hx, hh, hc⟩
  | progress =>
    have hstep : postStep st PostEvent.progress = st := by
      simp only [postStep]
      rw [if_neg hh]
    rw [hstep]
    exact ⟨hx, hh, hc⟩
  | timer =>
    by_cases ht : st.timerScheduled = true
    · have hstep : postStep st PostEvent.timer = { st with exn := true } := by
        simp only [postStep]
        rw [if_pos ht, postOnComplete_dead st hx]
      rw [hstep]
      exact ⟨hx, hh, hc⟩
    · have hstep : postStep st PostEvent.timer = st := by
        simp only [postStep]
        rw [if_neg ht]
      rw [hstep]
      exact ⟨hx, hh, hc⟩

/-- Resolution persists along any further event trace. -/
theorem postDone_foldl (st : PostState) (evs : List PostEvent) (h : postDone st) :
    postDone (evs.foldl postStep st) := by
  induction evs generalizing st with
  | nil => exact h
  | cons e rest ih => exact ih _ (postDone_step st e h)

/-- A firing event resolves a pending async `post` call with exactly one
callback invocation. -/
theorem postPending_resolve (st : PostState) (e : PostEvent) (h : postPending st)
    (hf : postFires e) : postDone (postStep st e) := by
  obtain ⟨hx, hh, ht, ha, hc⟩ := h
  simp only [postCount] at hc
  cases e with
  | arrive r =>
    have hstep : postStep st (PostEvent.arrive r) =
        postOnComplete false { st with arrived := some r } := by
      simp only [postStep]
      rw [if_pos hh]
    rw [hstep, postOnComplete_arrived { st with arrived := some r } r false hx rfl]
    by_cases hs : (r.status : Int).fdiv 100 = 2
    · rw [if_pos hs]
      refine ⟨rfl, by simp, ?_⟩
      simp only [postCount, List.length_append, List.length_cons, List.length_nil]
      omega
    · rw [if_neg hs]
      refine ⟨rfl, by simp, ?_⟩
      simp only [postCount, List.length_append, List.length_cons, List.length_nil]
      omega
  | progress => exact absurd hf (by simp [postFires])
  | timer =>
    have hstep : postStep st PostEvent.timer = postOnComplete true st := by
      simp only [postStep]
      rw [if_pos ht]
    rw [hstep, postOnComplete_timeoutPath st hx ha]
    refine ⟨rfl, by simp, ?_⟩
    simp only [postCount, List.length_append, List.length_cons, List.length_nil]
    omega

/-- A pending async `post` call stays pending under a non-firing event. -/
theorem postPending_step_nofire (st : PostState) (e : PostEvent) (h : postPending st)
    (hnf : ¬ postFires e) : postPending (postStep st e) := by
  cases e with
  | arrive r => exact absurd trivial hnf
  | timer => exact absurd trivial hnf
  | progress =>
    obtain ⟨hx, hh, ht, ha, hc⟩ := h
    have hstep : postStep st PostEvent.progress = st := by
      simp only [postStep]
      rw [if_pos hh]
      unfold postOnComplete
      simp [ha]
    rw [hstep]
    exact ⟨hx, hh, ht, ha, hc⟩

/-- A pending async `post` call is resolved exactly once by any trace
containing a firing event. -/
theorem postPending_foldl_fire (st : PostState) (evs : List PostEvent)
    (h : postPending st) (hf : ∃ e ∈ evs, postFires e) :
    postDone (evs.foldl postStep st) := by
  induction evs generalizing st with
  | nil =>
    obtain ⟨e, he, _⟩ := hf
    exact absurd he (List.not_mem_nil e)
  | cons e rest ih =>
    by_cases hfe : postFires e
    · exact postDone_foldl _ rest (postPending_resolve st e h hfe)
    · obtain ⟨e', he', hf'⟩ := hf
      rcases List.mem_cons.mp he' with rfl | hmem
      · exact absurd hf' hfe
      · exact ih _ (postPending_step_nofire st e h hfe) ⟨e', hmem, hf'⟩

/-- A synchronously-completed `post` (readyState 4 at send time, line 123)
invokes exactly one callback immediately and never again. -/
theorem post_exactly_once_sync (r : PostResponse) (evs : List PostEvent) :
    postCount (evs.foldl postStep (postSend (some r))) = 1 := by
  have hdone : postDone (postSend (some r)) := by
    unfold postSend
    rw [if_pos (by simp)]
    rw [postOnComplete_arrived _ r false rfl rfl]
    by_cases hs : (r.status : Int).fdiv 100 = 2
    · rw [if_pos hs]
      exact ⟨rfl, by simp, rfl⟩
    · rw [if_neg hs]
      exact ⟨rfl, by simp, rfl⟩
  exact (postDone_foldl _ evs hdone).2.2

/-- An async `post` call invokes exactly one callback over any trace that
eventually fires it (the always-scheduled timer guarantees such an event). -/
theorem post_exactly_once_async (evs : List PostEvent)
    (hf : ∃ e ∈ evs, postFires e) :
    postCount (evs.foldl postStep (postSend none)) = 1 := by
  have hpend : postPending (postSend none) := by
    unfold postSend
    rw [if_neg (by simp)]
    exact ⟨rfl, rfl, rfl, rfl, rfl⟩
  exact (postPending_foldl_fire _ evs hpend hf).2.2

/-- C1: through either transport, exactly one of the completion/error
callbacks is invoked, exactly once — for `rpc` over any event trace
(slot invocations, timer, duplicates, other interleaved calls) containing an
event that fires the call; for `post` both when the transport resolves
synchronously at send time and on any async trace where a response or the
timer (always scheduled) eventually fires, including a response racing the
timer. -/
theorem claim_C1 :
    (∀ (st : RpcState) (tArg : RpcTimeoutArg) (evs : List RpcEvent),
        rpcCount st st.calls.length = 0 →
        (∃ e ∈ evs, rpcFires (rpcEffectiveTimeout tArg) st.calls.length e) →
        rpcCount (evs.foldl rpcStep (rpcCall st tArg true true)) st.calls.length = 1) ∧
      (∀ (r : PostResponse) (evs : List PostEvent),
        postCount (evs.foldl postStep (postSend (some r))) = 1) ∧
      ∀ (evs : List PostEvent), (∃ e ∈ evs, postFires e) →
        postCount (evs.foldl postStep (postSend none)) = 1 :=
  ⟨rpc_exactly_once, post_exactly_once_sync, post_exactly_once_async⟩

/-- C1 witness: an `rpc` call resolved by its timer; a synchronous `post`
completion; an async `post` resolved by its timer racing no response. -/
theorem claim_C1_witness :
    rpcCount ([RpcEvent.timeoutEv 0].foldl rpcStep
        (rpcCall rpcInit RpcTimeoutArg.undef true true)) 0 = 1 ∧
      postCount ([].foldl postStep (postSend (some ⟨200, "OK", "r"⟩))) = 1 ∧
      postCount ([PostEvent.timer].foldl postStep (postSend none)) = 1 :=
  ⟨claim_C1.1 rpcInit RpcTimeoutArg.undef [RpcEvent.timeoutEv 0] rfl
      ⟨RpcEvent.timeoutEv 0, by simp, ⟨rfl, rfl⟩⟩,
    claim_C1.2.1 ⟨200, "OK", "r"⟩ [],
    claim_C1.2.2 [PostEvent.timer] ⟨PostEvent.timer, by simp, trivial⟩⟩

/-- C5: the code does NOT transmit a pre-encoded string `params` unchanged:
line 85 initializes `bodyText` from the still-undefined `bodyText` itself
(instead of `params`), so for a string argument the computed request body is
`undefined`, contradicting the documented contract of lines 81-82. -/
theorem claim_C5 :
    post_bodyText (JSParams.str "a=1") = none ∧
      post_bodyText (JSParams.str "a=1") ≠ some "a=1" := by
  decide

/-- C6: a timeout with no response invokes the error callback with
`statusCode = -1` and `statusText = ''`, on both transports: the `rpc`
timeout closure calls `error(-1, '')` directly (line 109), and `post`'s
`onComplete(0, true)` keeps the initialized `-1`/`''` when the XHR has no
response to read (lines 107, 112-116). -/
theorem claim_C6 :
    (∀ (st : RpcState) (id : Nat) (c : RpcCallRec),
        st.calls[id]? = some c → c.live = true → c.hasE = true →
        c.timeoutMs.isSome = true →
        (rpcStep st (RpcEvent.timeoutEv id)).errorLog = st.errorLog ++ [(id, -1, "")] ∧
          (rpcStep st (RpcEvent.timeoutEv id)).completeLog = st.completeLog) ∧
      ∀ (st : PostState), st.timerScheduled = true → st.xhrLive = true →
        st.arrived = none →
        (postStep st PostEvent.timer).errorLog = st.errorLog ++ [(-1, "")] ∧
          (postStep st PostEvent.timer).completeLog = st.completeLog := by
  constructor
  · intro st id c hc hlive hE ht
    rw [rpcStep_timeout_some st id c hc hlive ht]
    constructor
    · show (if c.hasE then st.errorLog ++ [(id, -1, "")] else st.errorLog) = _
      rw [if_pos hE]
    · rfl
  · intro st ht hx ha
    simp only [postStep, if_pos ht]
    rw [postOnComplete_timeoutPath st hx ha]
    exact ⟨rfl, rfl⟩

/-- C6 witness: both transports timing out with no response. -/
theorem claim_C6_witness :
    ((rpcStep (rpcCall rpcInit RpcTimeoutArg.undef true true) (RpcEvent.timeoutEv 0)).errorLog =
        (rpcCall rpcInit RpcTimeoutArg.undef true true).errorLog ++ [(0, -1, "")] ∧
      (rpcStep (rpcCall rpcInit RpcTimeoutArg.undef true true) (RpcEvent.timeoutEv 0)).completeLog =
        (rpcCall rpcInit RpcTimeoutArg.undef true true).completeLog) ∧
      (postStep (postSend none) PostEvent.timer).errorLog = (postSend none).errorLog ++ [(-1, "")] ∧
      (postStep (postSend none) PostEvent.timer).completeLog = (postSend none).completeLog :=
  ⟨claim_C6.1 (rpcCall rpcInit RpcTimeoutArg.undef true true) 0 ⟨0, true, true, some 10000, true⟩
      (by decide) rfl rfl rfl,
    claim_C6.2 (postSend none) (by decide) (by decide) (by decide)⟩

/-- C9: with the timeout argument omitted (third positional argument being
the completion function), the effective timeout is 10000 ms on both
transports; and for `rpc`, an explicit `null` timeout schedules no timer at
all — a timeout event for such a call changes nothing, so the call can only
resolve through its success or error slot. -/
theorem claim_C9 :
    rpcEffectiveTimeout RpcTimeoutArg.fn = some 10000 ∧
      postEffectiveTimeout PostTimeoutArg.fn = 10000 ∧
      rpcEffectiveTimeout RpcTimeoutArg.null = none ∧
      ∀ (st : RpcState) (id : Nat) (c : RpcCallRec),
        st.calls[id]? = some c → c.timeoutMs = none →
        rpcStep st (RpcEvent.timeoutEv id) = st :=
  ⟨rfl, rfl, rfl, fun st id c hc ht => rpcStep_timeout_noTimer st id c hc ht⟩

/-- C9 witness: a `null`-timeout call is untouched by a timeout event. -/
theorem claim_C9_witness :
    rpcStep (rpcCall rpcInit RpcTimeoutArg.null true true) (RpcEvent.timeoutEv 0) =
      rpcCall rpcInit RpcTimeoutArg.null true true :=
  claim_C9.2.2.2 (rpcCall rpcInit RpcTimeoutArg.null true true) 0 ⟨0, true, true, none, true⟩
    (by decide) rfl

/-- A `Char`'s scalar value is below the surrogate range or above it and
below 0x110000. -/
theorem charValid (c : Char) : c.toNat < 0xD800 ∨ (0xDFFF < c.toNat ∧ c.toNat < 0x110000) :=
  c.valid

/-- `String.mk` is inverse to `String.data`. -/
theorem mk_data (s : String) : String.mk s.data = s := rfl

/-- The scalar value of a hex digit character. -/
theorem toNat_hexDigit (n : Nat) (h10 : n < 10) : (hexDigit n).toNat = 48 + n := by
  unfold hexDigit
  rw [if_pos h10]
  exact toNat_ofNat_valid (Or.inl (by omega))

/-- The scalar value of a hex digit character, letter case. -/
theorem toNat_hexDigit' (n : Nat) (h : n < 16) (h10 : ¬ n < 10) :
    (hexDigit n).toNat = 55 + n := by
  unfold hexDigit
  rw [if_neg h10]
  exact toNat_ofNat_valid (Or.inl (by omega))

/-- `hexVal` is a left inverse of `hexDigit` below 16. -/
theorem hexVal_hexDigit (n : Nat) (h : n < 16) : hexVal (hexDigit n) = some n := by
  by_cases h10 : n < 10
  · unfold hexVal
    rw [toNat_hexDigit n h10, if_pos (by omega)]
    congr 1
    omega
  · unfold hexVal
    rw [toNat_hexDigit' n h h10, if_neg (by omega), if_pos (by omega)]
    congr 1
    omega

/-- Unfolding `decodeURIComponent` at a `%`. -/
theorem decode_cons_pct (rest : List Char) :
    decodeURIComponent ('%' :: rest) =
      match decodeEsc rest with
      | some (d, n) => (decodeURIComponent (rest.drop n)).map (fun l => d :: l)
      | none => none := by
  rw [decodeURIComponent]
  rw [if_pos (show ('%' : Char).toNat = 37 from rfl)]

/-- Unfolding `decodeURIComponent` at an ordinary character. -/
theorem decode_cons_nonpct (c : Char) (rest : List Char) (h : c.toNat ≠ 37) :
    decodeURIComponent (c :: rest) = (decodeURIComponent rest).map (fun l => c :: l) := by
  rw [decodeURIComponent]
  rw [if_neg h]

/-- Parsing the escape of an ASCII byte. -/
theorem decodeEsc_1 (b : Nat) (t : List Char) (h : b < 0x80) :
    decodeEsc (hexDigit (b / 16) :: hexDigit (b % 16) :: t) = some (Char.ofNat b, 2) := by
  simp only [decodeEsc, hexVal_hexDigit _ (show b / 16 < 16 by omega),
    hexVal_hexDigit _ (show b % 16 < 16 by omega), Nat.div_add_mod]
  rw [if_pos h]

/-- Decoding one percent-escaped ASCII byte. -/
theorem decode_pct1 (b : Nat) (t : List Char) (h : b < 0x80) :
    decodeURIComponent (pctByte b ++ t) =
      (decodeURIComponent t).map (fun l => Char.ofNat b :: l) := by
  simp only [pctByte, List.cons_append, List.nil_append]
  rw [decode_cons_pct, decodeEsc_1 b t h]
  rfl

/-- Parsing one continuation-byte escape. -/
theorem contVal_hexDigit (b : Nat) (h : 0x80 ≤ b) (h' : b < 0xC0) :
    contVal '%' (hexDigit (b / 16)) (hexDigit (b % 16)) = some (b - 0x80) := by
  unfold contVal
  rw [if_pos (show ('%' : Char).toNat = 37 from rfl)]
  simp only [hexVal_hexDigit _ (show b / 16 < 16 by omega),
    hexVal_hexDigit _ (show b % 16 < 16 by omega), Nat.div_add_mod]
  rw [if_pos ⟨h, h'⟩]

/-- Parsing the escape sequence of a two-byte UTF-8 character. -/
theorem decodeEsc_2 (b0 b1 : Nat) (t : List Char)
    (h0 : 0xC0 ≤ b0) (h0' : b0 < 0xE0) (h1 : 0x80 ≤ b1) (h1' : b1 < 0xC0)
    (hv : 0x80 ≤ (b0 - 0xC0) * 64 + (b1 - 0x80)) :
    decodeEsc (hexDigit (b0 / 16) :: hexDigit (b0 % 16) :: '%' :: hexDigit (b1 / 16) ::
        hexDigit (b1 % 16) :: t) =
      some (Char.ofNat ((b0 - 0xC0) * 64 + (b1 - 0x80)), 5) := by
  simp only [decodeEsc, hexVal_hexDigit _ (show b0 / 16 < 16 by omega),
    hexVal_hexDigit _ (show b0 % 16 < 16 by omega), Nat.div_add_mod,
    contVal_hexDigit b1 h1 h1']
  rw [if_neg (show ¬ b0 < 0x80 by omega), if_neg (show ¬ b0 < 0xC0 by omega),
    if_pos h0', if_pos hv]

/-- Decoding one percent-escaped two-byte sequence. -/
theorem decode_pct2 (b0 b1 : Nat) (t : List Char)
    (h0 : 0xC0 ≤ b0) (h0' : b0 < 0xE0) (h1 : 0x80 ≤ b1) (h1' : b1 < 0xC0)
    (hv : 0x80 ≤ (b0 - 0xC0) * 64 + (b1 - 0x80)) :
    decodeURIComponent (pctByte b0 ++ (pctByte b1 ++ t)) =
      (decodeURIComponent t).map
        (fun l => Char.ofNat ((b0 - 0xC0) * 64 + (b1 - 0x80)) :: l) := by
  simp only [pctByte, List.cons_append, List.nil_append]
  rw [decode_cons_pct, decodeEsc_2 b0 b1 t h0 h0' h1 h1' hv]
  rfl

/-- Parsing the escape sequence of a three-byte UTF-8 character. -/
theorem decodeEsc_3 (b0 b1 b2 : Nat) (t : List Char)
    (h0 : 0xE0 ≤ b0) (h0' : b0 < 0xF0) (h1 : 0x80 ≤ b1) (h1' : b1 < 0xC0)
    (h2 : 0x80 ≤ b2) (h2' : b2 < 0xC0)
    (hv : 0x800 ≤ (b0 - 0xE0) * 4096 + (b1 - 0x80) * 64 + (b2 - 0x80) ∧
      ((b0 - 0xE0) * 4096 + (b1 - 0x80) * 64 + (b2 - 0x80) < 0xD800 ∨
        0xE000 ≤ (b0 - 0xE0) * 4096 + (b1 - 0x80) * 64 + (b2 - 0x80))) :
    decodeEsc (hexDigit (b0 / 16) :: hexDigit (b0 % 16) :: '%' :: hexDigit (b1 / 16) ::
        hexDigit (b1 % 16) :: '%' :: hexDigit (b2 / 16) :: hexDigit (b2 % 16) :: t) =
      some (Char.ofNat ((b0 - 0xE0) * 4096 + (b1 - 0x80) * 64 + (b2 - 0x80)), 8) := by
  simp only [decodeEsc, hexVal_hexDigit _ (show b0 / 16 < 16 by omega),
    hexVal_hexDigit _ (show b0 % 16 < 16 by omega), Nat.div_add_mod,
    contVal_hexDigit b1 h1 h1', contVal_hexDigit b2 h2 h2']
  rw [if_neg (show ¬ b0 < 0x80 by omega), if_neg (show ¬ b0 < 0xC0 by omega),
    if_neg (show ¬ b0 < 0xE0 by omega), if_pos h0', if_pos hv]

/-- Decoding one percent-escaped three-byte sequence. -/
theorem decode_pct3 (b0 b1 b2 : Nat) (t : List Char)
    (h0 : 0xE0 ≤ b0) (h0' : b0 < 0xF0) (h1 : 0x80 ≤ b1) (h1' : b1 < 0xC0)
    (h2 : 0x80 ≤ b2) (h2' : b2 < 0xC0)
    (hv : 0x800 ≤ (b0 - 0xE0) * 4096 + (b1 - 0x80) * 64 + (b2 - 0x80) ∧
      ((b0 - 0xE0) * 4096 + (b1 - 0x80) * 64 + (b2 - 0x80) < 0xD800 ∨
        0xE000 ≤ (b0 - 0xE0) * 4096 + (b1 - 0x80) * 64 + (b2 - 0x80))) :
    decodeURIComponent (pctByte b0 ++ (pctByte b1 ++ (pctByte b2 ++ t))) =
      (decodeURIComponent t).map
        (fun l => Char.ofNat ((b0 - 0xE0) * 4096 + (b1 - 0x80) * 64 + (b2 - 0x80)) :: l) := by
  simp only [pctByte, List.cons_append, List.nil_append]
  rw [decode_cons_pct, decodeEsc_3 b0 b1 b2 t h0 h0' h1 h1' h2 h2' hv]
  rfl

/-- Parsing the escape sequence of a four-byte UTF-8 character. -/
theorem decodeEsc_4 (b0 b1 b2 b3 : Nat) (t : List Char)
    (h0 : 0xF0 ≤ b0) (h0' : b0 < 0xF8) (h1 : 0x80 ≤ b1) (h1' : b1 < 0xC0)
    (h2 : 0x80 ≤ b2) (h2' : b2 < 0xC0) (h3 : 0x80 ≤ b3) (h3' : b3 < 0xC0)
    (hv : 0x10000 ≤ (b0 - 0xF0) * 262144 + (b1 - 0x80) * 4096 + (b2 - 0x80) * 64 + (b3 - 0x80) ∧
      (b0 - 0xF0) * 262144 + (b1 - 0x80) * 4096 + (b2 - 0x80) * 64 + (b3 - 0x80) < 0x110000) :
    decodeEsc (hexDigit (b0 / 16) :: hexDigit (b0 % 16) :: '%' :: hexDigit (b1 / 16) ::
        hexDigit (b1 % 16) :: '%' :: hexDigit (b2 / 16) :: hexDigit (b2 % 16) :: '%' ::
        hexDigit (b3 / 16) :: hexDigit (b3 % 16) :: t) =
      some (Char.ofNat
        ((b0 - 0xF0) * 262144 + (b1 - 0x80) * 4096 + (b2 - 0x80) * 64 + (b3 - 0x80)), 11) := by
  simp only [decodeEsc, hexVal_hexDigit _ (show b0 / 16 < 16 by omega),
    hexVal_hexDigit _ (show b0 % 16 < 16 by omega), Nat.div_add_mod,
    contVal_hexDigit b1 h1 h1', contVal_hexDigit b2 h2 h2', contVal_hexDigit b3 h3 h3']
  rw [if_neg (show ¬ b0 < 0x80 by omega), if_neg (show ¬ b0 < 0xC0 by omega),
    if_neg (show ¬ b0 < 0xE0 by omega), if_neg (show ¬ b0 < 0xF0 by omega),
    if_pos h0', if_pos hv]

/-- Decoding one percent-escaped four-byte sequence. -/
theorem decode_pct4 (b0 b1 b2 b3 : Nat) (t : List Char)
    (h0 : 0xF0 ≤ b0) (h0' : b0 < 0xF8) (h1 : 0x80 ≤ b1) (h1' : b1 < 0xC0)
    (h2 : 0x80 ≤ b2) (h2' : b2 < 0xC0) (h3 : 0x80 ≤ b3) (h3' : b3 < 0xC0)
    (hv : 0x10000 ≤ (b0 - 0xF0) * 262144 + (b1 - 0x80) * 4096 + (b2 - 0x80) * 64 + (b3 - 0x80) ∧
      (b0 - 0xF0) * 262144 + (b1 - 0x80) * 4096 + (b2 - 0x80) * 64 + (b3 - 0x80) < 0x110000) :
    decodeURIComponent (pctByte b0 ++ (pctByte b1 ++ (pctByte b2 ++ (pctByte b3 ++ t)))) =
      (decodeURIComponent t).map (fun l => Char.ofNat
        ((b0 - 0xF0) * 262144 + (b1 - 0x80) * 4096 + (b2 - 0x80) * 64 + (b3 - 0x80)) :: l) := by
  simp only [pctByte, List.cons_append, List.nil_append]
  rw [decode_cons_pct, decodeEsc_4 b0 b1 b2 b3 t h0 h0' h1 h1' h2 h2' h3 h3' hv]
  rfl

/-- Decoding the encoding of one character, in front of any tail. -/
theorem decode_encChar (c : Char) (t : List Char) :
    decodeURIComponent (encChar c ++ t) = (decodeURIComponent t).map (fun l => c :: l) := by
  by_cases hu : isUnreserved c = true
  · have h37 : c.toNat ≠ 37 := by
      intro hc
      simp only [isUnreserved, hc] at hu
      exact absurd hu (by decide)
    rw [show encChar c = [c] from by simp [encChar, hu], List.singleton_append,
      decode_cons_nonpct c t h37]
  · have hu' : isUnreserved c = false := by
      revert hu
      cases isUnreserved c <;> simp
    have hval := charValid c
    simp only [encChar, hu', Bool.false_eq_true, if_false]
    rcases Nat.lt_or_ge c.toNat 0x80 with h1 | h1
    · rw [show utf8Bytes c = [c.toNat] from by simp only [utf8Bytes]; rw [if_pos h1]]
      simp only [List.flatMap_cons, List.flatMap_nil, List.append_nil]
      rw [decode_pct1 _ t h1, Char.ofNat_toNat]
    · rcases Nat.lt_or_ge c.toNat 0x800 with h2 | h2
      · rw [show utf8Bytes c = [0xC0 + c.toNat / 64, 0x80 + c.toNat % 64] from by
          simp only [utf8Bytes]; rw [if_neg (by omega), if_pos h2]]
        simp only [List.flatMap_cons, List.flatMap_nil, List.append_nil, List.append_assoc]
        rw [decode_pct2 _ _ t (by omega) (by omega) (by omega) (by omega) (by omega)]
        rw [show (0xC0 + c.toNat / 64 - 0xC0) * 64 + (0x80 + c.toNat % 64 - 0x80) = c.toNat
          from by omega, Char.ofNat_toNat]
      · rcases Nat.lt_or_ge c.toNat 0x10000 with h3 | h3
        · rw [show utf8Bytes c =
              [0xE0 + c.toNat / 4096, 0x80 + c.toNat / 64 % 64, 0x80 + c.toNat % 64] from by
            simp only [utf8Bytes]; rw [if_neg (by omega), if_neg (by omega), if_pos h3]]
          simp only [List.flatMap_cons, List.flatMap_nil, List.append_nil, List.append_assoc]
          rw [decode_pct3 _ _ _ t (by omega) (by omega) (by omega) (by omega) (by omega)
            (by omega) (by constructor <;> omega)]
          rw [show (0xE0 + c.toNat / 4096 - 0xE0) * 4096 + (0x80 + c.toNat / 64 % 64 - 0x80) * 64 +
              (0x80 + c.toNat % 64 - 0x80) = c.toNat from by omega, Char.ofNat_toNat]
        · rw [show utf8Bytes c = [0xF0 + c.toNat / 262144, 0x80 + c.toNat / 4096 % 64,
              0x80 + c.toNat / 64 % 64, 0x80 + c.toNat % 64] from by
            simp only [utf8Bytes]; rw [if_neg (by omega), if_neg (by omega), if_neg (by omega)]]
          simp only [List.flatMap_cons, List.flatMap_nil, List.append_nil, List.append_assoc]
          rw [decode_pct4 _ _ _ _ t (by omega) (by omega) (by omega) (by omega) (by omega)
            (by omega) (by omega) (by omega) (by constructor <;> omega)]
          rw [show (0xF0 + c.toNat / 262144 - 0xF0) * 262144 +
              (0x80 + c.toNat / 4096 % 64 - 0x80) * 4096 + (0x80 + c.toNat / 64 % 64 - 0x80) * 64 +
              (0x80 + c.toNat % 64 - 0x80) = c.toNat from by omega, Char.ofNat_toNat]

/-- Decoding the encoding of a string, in front of any tail. -/
theorem decode_encode_append (s t : List Char) :
    decodeURIComponent (encodeURIComponent s ++ t) =
      (decodeURIComponent t).map (fun l => s ++ l) := by
  induction s with
  | nil =>
    simp only [encodeURIComponent, List.flatMap_nil, List.nil_append]
    cases decodeURIComponent t <;> simp
  | cons c s ih =>
    simp only [encodeURIComponent, List.flatMap_cons, List.append_assoc]
    rw [show List.flatMap s encChar = encodeURIComponent s from rfl, decode_encChar c _, ih]
    cases decodeURIComponent t <;> simp

/-- `decodeURIComponent` is a left inverse of `encodeURIComponent`. -/
theorem decode_encode (s : List Char) :
    decodeURIComponent (encodeURIComponent s) = some s := by
  have h := decode_encode_append s []
  simp only [List.append_nil] at h
  rw [show decodeURIComponent [] = some [] from by rw [decodeURIComponent]] at h
  simpa using h

/-- The scalar value of a hex digit character is never `&` (38) or `=` (61). -/
theorem toNat_hexDigit_ne (m : Nat) (h : m < 16) :
    (hexDigit m).toNat ≠ 38 ∧ (hexDigit m).toNat ≠ 61 := by
  by_cases h10 : m < 10
  · rw [toNat_hexDigit m h10]
    constructor <;> omega
  · rw [toNat_hexDigit' m h h10]
    constructor <;> omega

/-- Every UTF-8 byte of a character is below 256. -/
theorem utf8Bytes_lt (c : Char) (b : Nat) (hb : b ∈ utf8Bytes c) : b < 256 := by
  have hval := charValid c
  rcases Nat.lt_or_ge c.toNat 0x80 with h1 | h1
  · rw [show utf8Bytes c = [c.toNat] from by simp only [utf8Bytes]; rw [if_pos h1]] at hb
    simp at hb
    omega
  · rcases Nat.lt_or_ge c.toNat 0x800 with h2 | h2
    · rw [show utf8Bytes c = [0xC0 + c.toNat / 64, 0x80 + c.toNat % 64] from by
        simp only [utf8Bytes]; rw [if_neg (by omega), if_pos h2]] at hb
      simp at hb
      omega
    · rcases Nat.lt_or_ge c.toNat 0x10000 with h3 | h3
      · rw [show utf8Bytes c =
            [0xE0 + c.toNat / 4096, 0x80 + c.toNat / 64 % 64, 0x80 + c.toNat % 64] from by
          simp only [utf8Bytes]; rw [if_neg (by omega), if_neg (by omega), if_pos h3]] at hb
        simp at hb
        omega
      · rw [show utf8Bytes c = [0xF0 + c.toNat / 262144, 0x80 + c.toNat / 4096 % 64,
            0x80 + c.toNat / 64 % 64, 0x80 + c.toNat % 64] from by
          simp only [utf8Bytes]; rw [if_neg (by omega), if_neg (by omega), if_neg (by omega)]] at hb
        simp at hb
        omega

/-- No character of `encChar`'s output is `&` (38) or `=` (61). -/
theorem mem_encChar_ne (c d : Char) (hd : d ∈ encChar c) :
    d.toNat ≠ 38 ∧ d.toNat ≠ 61 := by
  unfold encChar at hd
  by_cases hu : isUnreserved c = true
  · rw [if_pos hu] at hd
    have heq : d = c := by simpa using hd
    subst heq
    simp only [isUnreserved, Bool.or_eq_true, decide_eq_true_eq] at hu
    omega
  · rw [if_neg hu] at hd
    obtain ⟨b, hb, hdb⟩ := List.mem_flatMap.mp hd
    have hb256 : b < 256 := utf8Bytes_lt c b hb
    simp only [pctByte, List.mem_cons, List.not_mem_nil, or_false] at hdb
    rcases hdb with rfl | rfl | rfl
    · constructor <;> decide
    · exact toNat_hexDigit_ne _ (by omega)
    · exact toNat_hexDigit_ne _ (by omega)

/-- Neither `&` nor `=` occurs in `encodeURIComponent`'s output. -/
theorem not_mem_encode (s : List Char) (d : Char) (hd : d.toNat = 38 ∨ d.toNat = 61) :
    d ∉ encodeURIComponent s := by
  intro hmem
  obtain ⟨c, _, hc⟩ := List.mem_flatMap.mp hmem
  have h := mem_encChar_ne c d hc
  omega

/-- `&` does not occur in an encoded pair. -/
theorem amp_not_mem_encPair (kv : String × String) : ('&' : Char) ∉ encPair kv := by
  intro h
  rcases List.mem_append.mp h with h | h
  · exact not_mem_encode _ '&' (Or.inl rfl) h
  · rcases List.mem_cons.mp h with h | h
    · exact absurd h (by decide)
    · exact not_mem_encode _ '&' (Or.inl rfl) h

/-- Splitting an encoded pair at `=` recovers the two encoded fields. -/
theorem splitOn_encPair (kv : String × String) :
    (encPair kv).splitOn '=' =
      [encodeURIComponent kv.1.data, encodeURIComponent kv.2.data] := by
  have hpair : encPair kv =
      List.intercalate ['='] [encodeURIComponent kv.1.data, encodeURIComponent kv.2.data] := by
    simp [encPair, List.intercalate, List.intersperse]
  rw [hpair]
  refine List.splitOn_intercalate _ '=' ?_ (by simp)
  intro p hp
  rcases List.mem_cons.mp hp with rfl | hp
  · exact not_mem_encode _ '=' (Or.inr rfl)
  · rcases List.mem_cons.mp hp with rfl | hp
    · exact not_mem_encode _ '=' (Or.inr rfl)
    · exact absurd hp (List.not_mem_nil p)

/-- Assigning a fresh key appends it to the object. -/
theorem jsObjSet_append (acc : List (String × String)) (k v : String)
    (h : ∀ q ∈ acc, q.1 ≠ k) : jsObjSet acc k v = acc ++ [(k, v)] := by
  induction acc with
  | nil => rfl
  | cons p ps ih =>
    have hp : p.1 ≠ k := h p (by simp)
    simp only [jsObjSet, if_neg hp, List.cons_append]
    rw [ih (fun q hq => h q (by simp [hq]))]

/-- The unserialize loop over a list of encoded pairs with pairwise-distinct
keys (also fresh for the accumulator) appends exactly the original pairs. -/
theorem urlUnserializeGo_encoded (l : List (String × String)) (acc : List (String × String))
    (hnodup : (l.map Prod.fst).Nodup)
    (hdisj : ∀ p ∈ l, ∀ q ∈ acc, q.1 ≠ p.1) :
    urlUnserializeGo (l.map encPair) acc = some (acc ++ l) := by
  induction l generalizing acc with
  | nil => simp [urlUnserializeGo]
  | cons kv rest ih =>
    obtain ⟨k, v⟩ := kv
    simp only [List.map_cons, urlUnserializeGo, splitOn_encPair]
    rw [show ([encodeURIComponent (k, v).1.data, encodeURIComponent (k, v).2.data].headD []) =
      encodeURIComponent k.data from rfl]
    rw [decode_encode k.data]
    rw [show [encodeURIComponent (k, v).1.data, encodeURIComponent (k, v).2.data][1]? =
      some (encodeURIComponent v.data) from rfl]
    dsimp only
    rw [decode_encode v.data]
    dsimp only
    rw [mk_data k, mk_data v]
    have hkfresh : ∀ q ∈ acc, q.1 ≠ k := fun q hq => hdisj (k, v) (by simp) q hq
    rw [jsObjSet_append acc k v hkfresh]
    have hnodup' : (rest.map Prod.fst).Nodup := (List.nodup_cons.mp hnodup).2
    have hknotin : k ∉ rest.map Prod.fst := (List.nodup_cons.mp hnodup).1
    have hdisj' : ∀ p ∈ rest, ∀ q ∈ acc ++ [(k, v)], q.1 ≠ p.1 := by
      intro p hp q hq
      rcases List.mem_append.mp hq with hq | hq
      · exact hdisj p (by simp [hp]) q hq
      · have hqe : q = (k, v) := by simpa using hq
        subst hqe
        intro hcontra
        have hk : k = p.1 := hcontra
        exact hknotin (by
          rw [hk]
          exact List.mem_map_of_mem Prod.fst hp)
    rw [ih (acc ++ [(k, v)]) hnodup' hdisj']
    simp

/-- C10: for every non-empty flat object with distinct string keys and string
values, `urlUnserialize` applied to `urlSerialize` returns the original
object: the serialization round-trips. -/
theorem claim_C10 (l : List (String × String)) (hne : l ≠ [])
    (hnodup : (l.map Prod.fst).Nodup) :
    urlUnserialize (urlSerialize l) = some l := by
  unfold urlSerialize urlUnserialize
  rw [show (String.mk (List.intercalate ['&'] (l.map encPair))).data =
    List.intercalate ['&'] (l.map encPair) from rfl]
  have hamp : ∀ p ∈ l.map encPair, ('&' : Char) ∉ p := by
    intro p hp
    obtain ⟨kv, _, rfl⟩ := List.mem_map.mp hp
    exact amp_not_mem_encPair kv
  have hne' : l.map encPair ≠ [] := by
    intro hmap
    exact hne (List.map_eq_nil_iff.mp hmap)
  rw [List.splitOn_intercalate _ '&' hamp hne',
    urlUnserializeGo_encoded l [] hnodup (by simp)]
  simp

/-- C10 witness: the round-trip at a concrete two-key object. -/
theorem claim_C10_witness :
    urlUnserialize (urlSerialize [("a", "1"), ("b", "two words")]) =
      some [("a", "1"), ("b", "two words")] :=
  claim_C10 [("a", "1"), ("b", "two words")] (by simp) (by decide)

end Mythril
